import Mathlib

/-!
Verification of the quick-verse-viewer server (src/server.js).

The development shallowly embeds the server's pure logic over `List Char` /
`String`:

* `cleanPunct` / `oneLine` — the text-normalization helpers (lines 53–66 of
  src/server.js).  Each JavaScript `String.replace` with a global regex is
  modelled as a single left-to-right pass; greedy/leftmost-match semantics of
  the concrete patterns (`<<\s*`, `\s*>>`, `[\r\n\u000B\u000C\u0085  ]+`,
  `\s{2,}`, `\s+`) are realised by small state machines.
* the reference regex `^([\d]?\s*[A-Za-z .]+)\s+(\d+)(?::(\d+)(?:-(\d+))?)?$`
  (line 133) — modelled as a backtracking matcher that enumerates candidate
  splits in the engine's priority order (earlier subpatterns outrank later
  ones, greedy quantifiers try longer matches first) and takes the first
  anchored match.
* `norm` / `bookToCode` (lines 115–123) with the alias table in source order,
  including the JavaScript property-lookup subtlety that `NAME_TO_CODE[clean]`
  also finds inherited `Object.prototype` members ("constructor", "__proto__").
* the `/api/verse` handler (lines 127–189), with the two upstream operations
  (`scraper.verse`, `scraper.chapter`) supplied as oracles; a fetch that fails
  or times out is a single `FetchResult.err` outcome (real time is not
  modelled, only the success/failure of each attempt).

Unicode case mapping is modelled on the ASCII range (the alias table and the
regex book class are ASCII-only), and JavaScript `Number(...)` coercion is
modelled on optionally-signed decimal integer literals, which covers the
integer translation ids and verse numbers the server manipulates.
-/

/-- JS regex `\s` / `String.prototype.trim` whitespace class. -/
def isWS (c : Char) : Bool :=
  c = ' ' || c = '\t' || c = '\n' || c = '\u000B' || c = '\u000C' || c = '\r' ||
  c = '\u00A0' || c = ' ' || (0x2000 ≤ c.toNat && c.toNat ≤ 0x200A) ||
  c = ' ' || c = ' ' || c = ' ' || c = ' ' || c = '　' ||
  c = '﻿'

/-- the line-break class `[\r\n\u000B\u000C\u0085  ]` of `oneLine`. -/
def isLB (c : Char) : Bool :=
  c = '\r' || c = '\n' || c = '\u000B' || c = '\u000C' || c = '\u0085' ||
  c = ' ' || c = ' '

/-- the zero-width class `[​-‍﻿]` of `oneLine`. -/
def isZW (c : Char) : Bool :=
  c = '​' || c = '‌' || c = '‍' || c = '﻿'

/-- JS regex `\d`, i.e. `[0-9]`. -/
def digitChar (c : Char) : Bool := '0' ≤ c && c ≤ '9'

/-- `.replace(/<<\s*/g, "“")` as a left-to-right scan.
`pend` records a single pending `<`; `skip` means a match was just emitted and
the greedy `\s*` is still consuming whitespace. -/
def roAux : Bool → Bool → List Char → List Char
  | pend, _, [] => if pend then ['<'] else []
  | true, _, c :: rest =>
    if c = '<' then '“' :: roAux false true rest
    else '<' :: c :: roAux false false rest
  | false, true, c :: rest =>
    if isWS c then roAux false true rest
    else if c = '<' then roAux true false rest
    else c :: roAux false false rest
  | false, false, c :: rest =>
    if c = '<' then roAux true false rest
    else c :: roAux false false rest

def replOpen (l : List Char) : List Char := roAux false false l

/-- `.replace(/\s*>>/g, "”")` as a left-to-right scan. `pend` buffers the
whitespace run that could belong to a match, `gt` records a following `>`. -/
def rcAux : List Char → Bool → List Char → List Char
  | pend, gt, [] => pend ++ if gt then ['>'] else []
  | pend, true, c :: rest =>
    if c = '>' then '”' :: rcAux [] false rest
    else if isWS c then pend ++ '>' :: rcAux [c] false rest
    else pend ++ '>' :: c :: rcAux [] false rest
  | pend, false, c :: rest =>
    if c = '>' then rcAux pend true rest
    else if isWS c then rcAux (pend ++ [c]) false rest
    else pend ++ c :: rcAux [] false rest

def replClose (l : List Char) : List Char := rcAux [] false l

/-- `.replace(/\*/g, "")`. -/
def replStar (l : List Char) : List Char := l.filter (fun c => c ≠ '*')

/-- `cleanPunct` (src/server.js:53): open quotes, close quotes, drop stars. -/
def cleanPunctL (l : List Char) : List Char := replStar (replClose (replOpen l))

/-- `.replace(/X+/g, " ")` for a character class `p`: every maximal run of
`p`-characters (length ≥ 1) becomes one space.  `inR` = inside a run whose
space was already emitted. -/
def runsToSpace (p : Char → Bool) : Bool → List Char → List Char
  | _, [] => []
  | inR, c :: rest =>
    if p c then (if inR then runsToSpace p true rest else ' ' :: runsToSpace p true rest)
    else c :: runsToSpace p false rest

/-- `.replace(/[\r\n\u000B\u000C\u0085  ]+/g, " ")`. -/
def lineBrL (l : List Char) : List Char := runsToSpace isLB false l

/-- `.replace(/ /g, " ")`. -/
def nbspL (l : List Char) : List Char :=
  l.map (fun c => if c = '\u00A0' then ' ' else c)

/-- `.replace(/[​-‍﻿]/g, "")`. -/
def zwL (l : List Char) : List Char := l.filter (fun c => !isZW c)

/-- `.replace(/\s{2,}/g, " ")`: a run of ≥ 2 whitespace characters becomes one
space, a lone whitespace character is kept as-is.  `p?` holds a single pending
whitespace character, `inR` = inside a ≥ 2 run whose space was already
emitted. -/
def colAux : Option Char → Bool → List Char → List Char
  | some p, _, [] => [p]
  | none, _, [] => []
  | some p, _, c :: rest =>
    if isWS c then ' ' :: colAux none true rest
    else p :: c :: colAux none false rest
  | none, inR, c :: rest =>
    if isWS c then (if inR then colAux none true rest else colAux (some c) false rest)
    else c :: colAux none false rest

def collapseL (l : List Char) : List Char := colAux none false l

/-- `String.prototype.trim`. -/
def trimL (l : List Char) : List Char :=
  ((( l.dropWhile isWS).reverse.dropWhile isWS).reverse)

/-- `oneLine` (src/server.js:59) over `List Char`. -/
def oneLineL (l : List Char) : List Char :=
  trimL (collapseL (zwL (nbspL (lineBrL (cleanPunctL l)))))

/-- `oneLine` on strings. -/
def oneLineS (s : String) : String := ⟨oneLineL s.data⟩

/-! ## The reference regex (src/server.js:133)

`^([\d]?\s*[A-Za-z .]+)\s+(\d+)(?::(\d+)(?:-(\d+))?)?$`

Each quantified piece is enumerated as a list of (consumed, rest) candidate
splits in the regex engine's backtracking priority order; nesting the lists
with `flatMap` makes earlier subpatterns more significant, exactly as the
engine fixes earlier choices and backtracks later ones first.  The first
candidate with an empty rest (the `$` anchor) is the match. -/

/-- the book-name class `[A-Za-z .]`. -/
def bookClass (c : Char) : Bool :=
  ('A' ≤ c && c ≤ 'Z') || ('a' ≤ c && c ≤ 'z') || c = ' ' || c = '.'

/-- candidate splits of a greedy `X*` over class `p`: longest first. -/
def candsStar (p : Char → Bool) (l : List Char) : List (List Char × List Char) :=
  (List.range ((l.takeWhile p).length + 1)).reverse.map (fun i => (l.take i, l.drop i))

/-- candidate splits of a greedy `X+` over class `p`: longest first, ≥ 1. -/
def candsPlus (p : Char → Bool) (l : List Char) : List (List Char × List Char) :=
  (candsStar p l).dropLast

/-- candidate splits of `[\d]?`: one digit first, then empty. -/
def optDigit : List Char → List (List Char × List Char)
  | [] => [([], [])]
  | c :: rest => if digitChar c then [([c], rest), ([], c :: rest)] else [([], c :: rest)]

/-- candidate splits of `(?:-(\d+))?`: present (greedy digits) first, then absent. -/
def rangeCands (l : List Char) : List (Option (List Char) × List Char) :=
  (match l with
   | '-' :: r => (candsPlus digitChar r).map (fun x => (some x.1, x.2))
   | _ => []) ++ [(none, l)]

/-- candidate splits of `(?::(\d+)(?:-(\d+))?)?`: present first, then absent. -/
def tailCands (l : List Char) :
    List (Option (List Char × Option (List Char)) × List Char) :=
  (match l with
   | ':' :: r =>
     (candsPlus digitChar r).flatMap (fun vs =>
       (rangeCands vs.2).map (fun ve => (some (vs.1, ve.1), ve.2)))
   | _ => []) ++ [(none, l)]

/-- the regex's capture groups: group 1 (raw book), group 2 (chapter digits),
groups 3/4 (verse-start digits and optional verse-end digits; group 4 can only
be present inside group 3, as in the pattern's nesting). -/
structure RawMatch where
  g1 : String
  g2 : String
  g34 : Option (String × Option String)
deriving DecidableEq, Repr

/-- all candidate matches of the reference regex, in priority order. -/
def matchCands (l : List Char) : List (RawMatch × List Char) :=
  (optDigit l).flatMap fun d1 =>
  (candsStar isWS d1.2).flatMap fun w1 =>
  (candsPlus bookClass w1.2).flatMap fun bk =>
  (candsPlus isWS bk.2).flatMap fun w2 =>
  (candsPlus digitChar w2.2).flatMap fun ch =>
  (tailCands ch.2).map fun t =>
  ({ g1 := ⟨d1.1 ++ w1.1 ++ bk.1⟩, g2 := ⟨ch.1⟩,
     g34 := t.1.map (fun x => ((⟨x.1⟩ : String), x.2.map (fun e => (⟨e⟩ : String)))) }, t.2)

/-- `input.match(regex)`: the first anchored full match, if any. -/
def matchRef (s : String) : Option RawMatch :=
  ((matchCands s.data).find? (fun x => x.2.isEmpty)).map (·.1)

/-- `Number(digits)` for a digit string (decimal value). -/
def natOfDigits (l : List Char) : Nat :=
  l.foldl (fun n c => n * 10 + (c.toNat - '0'.toNat)) 0

/-- the ParsedReference of the spec: book, chapter, optional verse range. -/
structure ParsedReference where
  bookRaw : String
  chapter : Nat
  verseStart : Option Nat
  verseEnd : Option Nat
deriving DecidableEq, Repr

/-- lines 136–139: `chapter = Number(chapStr)`, `vStart = vStartStr ?
Number(vStartStr) : undefined`, `vEnd = vEndStr ? Number(vEndStr) : vStart`. -/
def parsedOfMatch (m : RawMatch) : ParsedReference :=
  { bookRaw := m.g1
    chapter := natOfDigits m.g2.data
    verseStart := m.g34.map (fun x => natOfDigits x.1.data)
    verseEnd :=
      match m.g34 with
      | some (_, some ve) => some (natOfDigits ve.data)
      | some (vs, none) => some (natOfDigits vs.data)
      | none => none }

def parseRef (s : String) : Option ParsedReference := (matchRef s).map parsedOfMatch

/-! ## Book-name resolution (src/server.js:86–123) -/

/-- the `NAME_TO_CODE` object literal, as an association list in the source's
definition order (`Object.keys` enumerates these non-integer string keys in
insertion order). -/
def NAME_TO_CODE : List (String × String) := [
  ("genesis","GEN"), ("exodus","EXO"), ("leviticus","LEV"), ("numbers","NUM"),
  ("deuteronomy","DEU"),
  ("joshua","JOS"), ("judges","JDG"), ("ruth","RUT"),
  ("1 samuel","1SA"), ("2 samuel","2SA"), ("i samuel","1SA"), ("ii samuel","2SA"),
  ("1 kings","1KI"), ("2 kings","2KI"), ("i kings","1KI"), ("ii kings","2KI"),
  ("1 chronicles","1CH"), ("2 chronicles","2CH"), ("i chronicles","1CH"),
  ("ii chronicles","2CH"),
  ("ezra","EZR"), ("nehemiah","NEH"), ("esther","EST"), ("job","JOB"),
  ("psalms","PSA"), ("psalm","PSA"), ("ps","PSA"),
  ("proverbs","PRO"), ("prov","PRO"),
  ("ecclesiastes","ECC"), ("qoheleth","ECC"), ("eccles","ECC"),
  ("song of songs","SNG"), ("song of solomon","SNG"), ("canticles","SNG"),
  ("songs","SNG"),
  ("isaiah","ISA"), ("jeremiah","JER"), ("lamentations","LAM"), ("lam","LAM"),
  ("ezekiel","EZK"), ("ezechiel","EZK"), ("daniel","DAN"),
  ("hosea","HOS"), ("joel","JOL"), ("amos","AMO"), ("obadiah","OBA"),
  ("jonah","JON"),
  ("micah","MIC"), ("nahum","NAM"), ("habakkuk","HAB"), ("zephaniah","ZEP"),
  ("haggai","HAG"), ("zechariah","ZEC"), ("malachi","MAL"),
  ("matthew","MAT"), ("mark","MRK"), ("luke","LUK"), ("john","JHN"),
  ("acts","ACT"),
  ("romans","ROM"), ("1 corinthians","1CO"), ("2 corinthians","2CO"),
  ("i corinthians","1CO"), ("ii corinthians","2CO"),
  ("galatians","GAL"), ("ephesians","EPH"), ("philippians","PHP"),
  ("colossians","COL"),
  ("1 thessalonians","1TH"), ("2 thessalonians","2TH"),
  ("i thessalonians","1TH"), ("ii thessalonians","2TH"),
  ("1 timothy","1TI"), ("2 timothy","2TI"), ("i timothy","1TI"),
  ("ii timothy","2TI"),
  ("titus","TIT"), ("philemon","PHM"), ("hebrews","HEB"), ("james","JAS"),
  ("1 peter","1PE"), ("2 peter","2PE"), ("i peter","1PE"), ("ii peter","2PE"),
  ("1 john","1JN"), ("2 john","2JN"), ("3 john","3JN"), ("i john","1JN"),
  ("ii john","2JN"), ("iii john","3JN"),
  ("jude","JUD"), ("revelation","REV"), ("revelations","REV"),
  ("apocalypse","REV")]

/-- `VALID_CODES = new Set(Object.values(NAME_TO_CODE))`; only membership is
used, so the value list stands in for the set. -/
def VALID_CODES : List String := NAME_TO_CODE.map (·.2)

/-- `norm` (line 115): strip periods, collapse `\s+` runs to single spaces,
trim, lowercase (ASCII case mapping). -/
def normS (s : String) : String :=
  ⟨(trimL (runsToSpace isWS false (s.data.filter (fun c => c ≠ '.')))).map Char.toLower⟩

/-- `k.startsWith(clean)` over char lists. -/
def isPrefixL : List Char → List Char → Bool
  | [], _ => true
  | _ :: _, [] => false
  | a :: as, b :: bs => a = b && isPrefixL as bs

/-- result of `bookToCode`: a code string, or a truthy non-string inherited
`Object.prototype` member (reached by `NAME_TO_CODE[clean]` when `clean` is
"constructor" or "__proto__" — the only prototype members writable in the
lowercase alphabet `norm` produces). -/
inductive BookHit where
  | code (c : String)
  | protoObj
deriving DecidableEq, Repr

/-- the lowercase-reachable inherited property names of an object literal. -/
def PROTO_KEYS : List String := ["constructor", "__proto__"]

/-- `bookToCode` (line 116): canonical code, exact alias (a JS property read,
so inherited `Object.prototype` members are also found and returned truthy),
else first alias key having the normalized string as a prefix, else null. -/
def bookToCode (raw : String) : Option BookHit :=
  let clean := normS raw
  let maybeCode : String := ⟨(clean.data.filter (fun c => !isWS c)).map Char.toUpper⟩
  if VALID_CODES.contains maybeCode then some (.code maybeCode)
  else
    match NAME_TO_CODE.find? (fun kv => kv.1 == clean) with
    | some kv => some (.code kv.2)
    | none =>
      if PROTO_KEYS.contains clean then some .protoObj
      else
        match NAME_TO_CODE.find? (fun kv => isPrefixL clean.data kv.1.data) with
        | some kv => some (.code kv.2)
        | none => none

/-! ## The /api/verse handler (src/server.js:127–189) -/

/-- `Number(x)` for an optionally-signed decimal integer string: trim, empty
means 0, otherwise sign and digits; anything else is NaN (`none`). -/
def jsNumberL (l : List Char) : Option Int :=
  match trimL l with
  | [] => some 0
  | '-' :: ds => if !ds.isEmpty && ds.all digitChar then some (-(natOfDigits ds : Int)) else none
  | '+' :: ds => if !ds.isEmpty && ds.all digitChar then some ((natOfDigits ds : Int)) else none
  | ds => if ds.all digitChar then some ((natOfDigits ds : Int)) else none

/-- `Number(req.query.X)`: an absent parameter is `undefined`, whose coercion
is NaN. -/
def jsNumber : Option String → Option Int
  | none => none
  | some s => jsNumberL s.data

/-- `String.prototype.split(".")`. -/
def splitDot : List Char → List (List Char)
  | [] => [[]]
  | c :: rest =>
    match splitDot rest with
    | s :: ss => if c = '.' then [] :: s :: ss else (c :: s) :: ss
    | [] => [[]]

/-- `Array.prototype.join(sep)`. -/
def joinSep (sep : List Char) : List (List Char) → List Char
  | [] => []
  | [x] => x
  | x :: xs => x ++ sep ++ joinSep sep xs

/-- one verse object returned by the upstream scraper (the fields the server
reads). -/
structure VerseData where
  reference : String
  content : String
deriving DecidableEq, Repr

/-- one chapter object returned by the upstream scraper; `verses` is optional
because the server guards with `(ch.verses || [])`. -/
structure ChapterData where
  verses : Option (List VerseData)
deriving DecidableEq, Repr

/-- outcome of one upstream call wrapped in `withTimeout`: either the value,
or a single failure covering both a fetch error and a timeout. -/
inductive FetchResult (α : Type) where
  | ok (val : α)
  | err
deriving DecidableEq, Repr

/-- the `data` payload of a 200 response: a normalized single verse, the
verse-range slice `{ content, reference }`, or a normalized chapter. -/
inductive RespData where
  | verse (v : VerseData)
  | slice (content : String) (reference : String)
  | chapter (ch : ChapterData)
deriving DecidableEq, Repr

/-- the JSON responses the handler can produce. -/
inductive Resp where
  | ok200 (data : RespData)
  | bad400 (error : String)
  | to504 (error : String)
deriving DecidableEq, Repr

/-- `Number(String(v.reference).split(".").pop())` (line 161). -/
def verseNum (v : VerseData) : Option Int :=
  jsNumberL ((splitDot v.reference.data).getLast?.getD [])

/-- the fallback filter (lines 160–163): keep a verse when its number parses
and lies in `[vs, ve]`; a NaN number fails both comparisons. -/
def inRange (vs ve : Nat) (v : VerseData) : Bool :=
  match verseNum v with
  | some n => decide ((vs : Int) ≤ n) && decide (n ≤ (ve : Int))
  | none => false

/-- the `slice` variable (lines 159–165): filtered verses, each content
normalized, joined with a single space. -/
def sliceJoin (vs ve : Nat) (verses : List VerseData) : List Char :=
  joinSep [' '] ((verses.filter (inRange vs ve)).map (fun v => oneLineL v.content.data))

/-- `vEnd = vEndStr ? Number(vEndStr) : vStart` (line 139). -/
def veOf (vsD : String) (veD? : Option String) : Nat :=
  match veD? with
  | some d => natOfDigits d.data
  | none => natOfDigits vsD.data

/-- stringification of a `bookToCode` result in a template literal; the
inherited member reachable through the handler is `Object`'s constructor,
whose Node rendering is "function Object() \x7b [native code] \x7d". -/
def hitStr : BookHit → String
  | .code c => c
  | .protoObj => "function Object() \x7b [native code] \x7d"

/-- the chapter-only branch (lines 172–184), also taken when `vStart` is the
falsy 0: fetch the chapter, normalize every verse's content, or 504. -/
def chapterOnly (fetchChapter : String → FetchResult ChapterData)
    (chapterRef : String) : Resp :=
  match fetchChapter chapterRef with
  | .ok ch =>
    .ok200 (.chapter ⟨some ((ch.verses.getD []).map
      (fun v => ⟨v.reference, oneLineS v.content⟩))⟩)
  | .err => .to504 "Upstream timeout. Please try again."

/-- the `GET /api/verse` handler (lines 127–189) with the two upstream
operations as oracles.  `ref`/`ver` are the query parameters (absent =
`undefined`). -/
def handler (ref ver : Option String)
    (fetchVerse : String → FetchResult VerseData)
    (fetchChapter : String → FetchResult ChapterData) : Resp :=
  let input : String := ⟨trimL (ref.getD "").data⟩
  let vn := jsNumber ver
  if input = "" ∨ vn = none ∨ vn = some 0 then .bad400 "Missing ref or ver"
  else
    match matchRef input with
    | none => .bad400 "Bad reference. Try 'John 3:16'."
    | some m =>
      match bookToCode m.g1 with
      | none => .bad400 ("Unknown book '" ++ m.g1 ++ "'")
      | some hit =>
        let code := hitStr hit
        let chapter := natOfDigits m.g2.data
        let chapterRef := code ++ "." ++ toString chapter
        match m.g34 with
        | some (vsD, veD?) =>
          let vs := natOfDigits vsD.data
          if vs = 0 then chapterOnly fetchChapter chapterRef
          else
            match fetchVerse (code ++ "." ++ toString chapter ++ "." ++ toString vs) with
            | .ok v => .ok200 (.verse ⟨v.reference, oneLineS v.content⟩)
            | .err =>
              match fetchChapter chapterRef with
              | .ok ch =>
                .ok200 (.slice ⟨oneLineL (sliceJoin vs (veOf vsD veD?) (ch.verses.getD []))⟩ input)
              | .err => .to504 "Upstream timeout. Please try again."
        | none => chapterOnly fetchChapter chapterRef

/-- the string contains the two-character pattern `aa` (used for the
substrings "<<" and ">>"). -/
def hasPair (a : Char) : List Char → Bool
  | c :: d :: rest => (c = a && d = a) || hasPair a (d :: rest)
  | _ => false

/-- no two adjacent whitespace characters. -/
def NoAdj (l : List Char) : Prop :=
  List.Chain' (fun a b => isWS a = false ∨ isWS b = false) l

/-! ## Fixed points of the normalization stages -/

theorem hasPair_tail {a c : Char} {l : List Char} (h : hasPair a (c :: l) = false) :
    hasPair a l = false := by
  cases l with
  | nil => rfl
  | cons d r =>
    rw [hasPair] at h
    exact (Bool.or_eq_false_iff.mp h).2

theorem hasPair_head {a : Char} {l : List Char} (h : hasPair a (a :: l) = false) :
    l.head? ≠ some a := by
  cases l with
  | nil => simp
  | cons d r =>
    rw [hasPair] at h
    have h1 := (Bool.or_eq_false_iff.mp h).1
    intro hd
    have hd' : d = a := by simpa using hd
    rw [hd'] at h1
    simp at h1

theorem roAux_fix : ∀ (l : List Char) (pend : Bool),
    hasPair '<' l = false → (pend = true → l.head? ≠ some '<') →
    roAux pend false l = (if pend then ['<'] else []) ++ l := by
  intro l
  induction l with
  | nil => intro pend _ _; cases pend <;> rfl
  | cons c rest ih =>
    intro pend hp hhd
    cases pend with
    | true =>
      have hc : ¬(c = '<') := by
        intro h; exact hhd rfl (by simp [h])
      rw [roAux, if_neg hc, ih false (hasPair_tail hp) (by simp)]
      simp
    | false =>
      by_cases hc : c = '<'
      · subst hc
        rw [roAux, if_pos rfl, ih true (hasPair_tail hp) (fun _ => hasPair_head hp)]
        simp
      · rw [roAux, if_neg hc, ih false (hasPair_tail hp) (by simp)]
        simp

theorem replOpen_fix {l : List Char} (h : hasPair '<' l = false) : replOpen l = l := by
  simpa using roAux_fix l false h (by simp)

theorem rcAux_fix : ∀ (l : List Char) (pend : List Char) (gt : Bool),
    hasPair '>' l = false → (gt = true → l.head? ≠ some '>') →
    rcAux pend gt l = pend ++ (if gt then ['>'] else []) ++ l := by
  intro l
  induction l with
  | nil =>
    intro pend gt _ _
    cases gt <;> simp [rcAux]
  | cons c rest ih =>
    intro pend gt hp hhd
    cases gt with
    | true =>
      have hc : ¬(c = '>') := by
        intro h; exact hhd rfl (by simp [h])
      by_cases hw : isWS c = true
      · rw [rcAux, if_neg hc, if_pos hw, ih [c] false (hasPair_tail hp) (by simp)]
        simp
      · rw [rcAux, if_neg hc, if_neg hw, ih [] false (hasPair_tail hp) (by simp)]
        simp
    | false =>
      by_cases hc : c = '>'
      · subst hc
        rw [rcAux, if_pos rfl, ih pend true (hasPair_tail hp) (fun _ => hasPair_head hp)]
        simp
      · by_cases hw : isWS c = true
        · rw [rcAux, if_neg hc, if_pos hw, ih (pend ++ [c]) false (hasPair_tail hp) (by simp)]
          simp
        · rw [rcAux, if_neg hc, if_neg hw, ih [] false (hasPair_tail hp) (by simp)]
          simp

theorem replClose_fix {l : List Char} (h : hasPair '>' l = false) : replClose l = l := by
  simpa using rcAux_fix l [] false h (by simp)

theorem replStar_fix {l : List Char} (h : '*' ∉ l) : replStar l = l := by
  rw [replStar, List.filter_eq_self]
  intro a ha
  simp only [decide_eq_true_eq]
  intro he; exact h (he ▸ ha)

theorem runsToSpace_fix (p : Char → Bool) :
    ∀ (l : List Char) (b : Bool), (∀ c ∈ l, p c = false) → runsToSpace p b l = l := by
  intro l
  induction l with
  | nil => intro b _; rfl
  | cons c rest ih =>
    intro b h
    rw [runsToSpace, if_neg (by simp [h c (by simp)]), ih false (fun d hd => h d (by simp [hd]))]

theorem nbspL_fix {l : List Char} (h : '\u00A0' ∉ l) : nbspL l = l := by
  rw [nbspL]
  induction l with
  | nil => rfl
  | cons c rest ih =>
    simp only [List.map_cons]
    rw [if_neg (by intro he; exact h (by simp [he])), ih (by intro hm; exact h (by simp [hm]))]

theorem zwL_fix {l : List Char} (h : ∀ c ∈ l, isZW c = false) : zwL l = l := by
  rw [zwL, List.filter_eq_self]
  intro a ha
  simp [h a ha]

theorem colAux_fix :
    ∀ (l : List Char),
      (NoAdj l → colAux none false l = l) ∧
      (∀ (p : Char) (b : Bool), isWS p = true → NoAdj (p :: l) → colAux (some p) b l = p :: l) := by
  intro l
  induction l with
  | nil =>
    refine ⟨fun _ => rfl, fun p b _ _ => rfl⟩
  | cons c rest ih =>
    constructor
    · intro h
      by_cases hw : isWS c = true
      · rw [colAux, if_pos hw]
        exact ih.2 c false hw h
      · rw [colAux, if_neg hw, ih.1 (h.tail)]
    · intro p b hp h
      by_cases hw : isWS c = true
      · exfalso
        have := List.chain'_cons.mp h
        rcases this.1 with h1 | h1
        · rw [hp] at h1; cases h1
        · rw [hw] at h1; cases h1
      · rw [colAux, if_neg hw]
        have h2 : NoAdj (c :: rest) := (List.chain'_cons.mp h).2
        rw [ih.1 h2.tail]

theorem collapseL_fix {l : List Char} (h : NoAdj l) : collapseL l = l :=
  (colAux_fix l).1 h

theorem dropWhile_id_of_head {p : Char → Bool} {l : List Char}
    (h : ∀ c, l.head? = some c → p c = false) : l.dropWhile p = l := by
  cases l with
  | nil => rfl
  | cons c rest => simp [List.dropWhile_cons, h c rfl]

theorem trimL_fix {l : List Char}
    (hh : ∀ c, l.head? = some c → isWS c = false)
    (hl : ∀ c, l.getLast? = some c → isWS c = false) : trimL l = l := by
  rw [trimL, dropWhile_id_of_head hh, dropWhile_id_of_head (by simpa using hl), List.reverse_reverse]

/-! ## Shape of the normalization stages' output -/

theorem mem_runsToSpace (p : Char → Bool) :
    ∀ (l : List Char) (b : Bool) (c : Char),
      c ∈ runsToSpace p b l → c = ' ' ∨ (c ∈ l ∧ p c = false) := by
  intro l
  induction l with
  | nil => intro b c h; rw [runsToSpace] at h; cases h
  | cons d rest ih =>
    intro b c h
    rw [runsToSpace] at h
    by_cases hd : p d = true
    · rw [if_pos hd] at h
      have h' : c = ' ' ∨ c ∈ runsToSpace p true rest := by
        cases b with
        | true => exact Or.inr (by simpa using h)
        | false =>
          rcases List.mem_cons.mp (by simpa using h) with h | h
          · exact Or.inl h
          · exact Or.inr h
      rcases h' with h' | h'
      · exact Or.inl h'
      · rcases ih true c h' with h'' | h''
        · exact Or.inl h''
        · exact Or.inr ⟨List.mem_cons_of_mem _ h''.1, h''.2⟩
    · rw [if_neg hd] at h
      rcases List.mem_cons.mp h with h | h
      · subst h; exact Or.inr ⟨List.mem_cons_self _ _, by simpa using hd⟩
      · rcases ih false c h with h'' | h''
        · exact Or.inl h''
        · exact Or.inr ⟨List.mem_cons_of_mem _ h''.1, h''.2⟩

theorem mem_nbspL {l : List Char} {c : Char} (h : c ∈ nbspL l) :
    c = ' ' ∨ (c ∈ l ∧ c ≠ '\u00A0') := by
  rw [nbspL] at h
  rcases List.mem_map.mp h with ⟨a, ha, hac⟩
  by_cases hn : a = '\u00A0'
  · rw [hn] at hac; simp at hac; exact Or.inl hac.symm
  · have hac' : a = c := by simpa [hn] using hac
    subst hac'
    exact Or.inr ⟨ha, hn⟩

theorem mem_zwL {l : List Char} {c : Char} (h : c ∈ zwL l) :
    c ∈ l ∧ isZW c = false := by
  rw [zwL] at h
  have := List.mem_filter.mp h
  exact ⟨this.1, by simpa using this.2⟩

theorem mem_colAux :
    ∀ (l : List Char) (p? : Option Char) (b : Bool) (c : Char),
      c ∈ colAux p? b l → c = ' ' ∨ c ∈ l ∨ p? = some c := by
  intro l
  induction l with
  | nil =>
    intro p? b c h
    cases p? with
    | none => cases h
    | some p =>
      rw [colAux] at h
      have := List.mem_singleton.mp h
      subst this
      exact Or.inr (Or.inr rfl)
  | cons d rest ih =>
    intro p? b c h
    cases p? with
    | some p =>
      rw [colAux] at h
      by_cases hd : isWS d = true
      · rw [if_pos hd] at h
        rcases List.mem_cons.mp h with h | h
        · exact Or.inl h
        · rcases ih none true c h with h | h | h
          · exact Or.inl h
          · exact Or.inr (Or.inl (List.mem_cons_of_mem _ h))
          · cases h
      · rw [if_neg hd] at h
        rcases List.mem_cons.mp h with h | h
        · exact Or.inr (Or.inr (by rw [h]))
        · rcases List.mem_cons.mp h with h | h
          · exact Or.inr (Or.inl (by rw [h]; exact List.mem_cons_self _ _))
          · rcases ih none false c h with h | h | h
            · exact Or.inl h
            · exact Or.inr (Or.inl (List.mem_cons_of_mem _ h))
            · cases h
    | none =>
      rw [colAux] at h
      by_cases hd : isWS d = true
      · rw [if_pos hd] at h
        have h' : c ∈ colAux none true rest ∨ c ∈ colAux (some d) false rest := by
          cases b with
          | true => exact Or.inl (by simpa using h)
          | false => exact Or.inr (by simpa using h)
        rcases h' with h' | h'
        · rcases ih none true c h' with h | h | h
          · exact Or.inl h
          · exact Or.inr (Or.inl (List.mem_cons_of_mem _ h))
          · cases h
        · rcases ih (some d) false c h' with h | h | h
          · exact Or.inl h
          · exact Or.inr (Or.inl (List.mem_cons_of_mem _ h))
          · have : d = c := by injection h
            exact Or.inr (Or.inl (by rw [← this]; exact List.mem_cons_self _ _))
      · rw [if_neg hd] at h
        rcases List.mem_cons.mp h with h | h
        · exact Or.inr (Or.inl (by rw [h]; exact List.mem_cons_self _ _))
        · rcases ih none false c h with h | h | h
          · exact Or.inl h
          · exact Or.inr (Or.inl (List.mem_cons_of_mem _ h))
          · cases h

theorem mem_dropWhile {p : Char → Bool} : ∀ {l : List Char} {c : Char},
    c ∈ l.dropWhile p → c ∈ l := by
  intro l
  induction l with
  | nil => intro c h; cases h
  | cons d rest ih =>
    intro c h
    rw [List.dropWhile_cons] at h
    by_cases hd : p d = true
    · rw [if_pos hd] at h; exact List.mem_cons_of_mem _ (ih h)
    · rw [if_neg hd] at h; exact h

theorem mem_trimL {l : List Char} {c : Char} (h : c ∈ trimL l) : c ∈ l := by
  rw [trimL] at h
  rw [List.mem_reverse] at h
  have := mem_dropWhile h
  rw [List.mem_reverse] at this
  exact mem_dropWhile this

theorem star_not_mem_replStar (l : List Char) : '*' ∉ replStar l := by
  intro h
  rw [replStar] at h
  have := (List.mem_filter.mp h).2
  simp at this

theorem head?_dropWhile {p : Char → Bool} : ∀ (l : List Char) (c : Char),
    (l.dropWhile p).head? = some c → p c = false := by
  intro l
  induction l with
  | nil => intro c h; cases h
  | cons d rest ih =>
    intro c h
    rw [List.dropWhile_cons] at h
    by_cases hd : p d = true
    · rw [if_pos hd] at h; exact ih c h
    · rw [if_neg hd] at h
      have : d = c := by simpa using h
      rw [← this]; simpa using hd

theorem getLast?_dropWhile {p : Char → Bool} : ∀ (l : List Char),
    l.dropWhile p = [] ∨ (l.dropWhile p).getLast? = l.getLast? := by
  intro l
  induction l with
  | nil => exact Or.inl rfl
  | cons d rest ih =>
    rw [List.dropWhile_cons]
    by_cases hd : p d = true
    · rw [if_pos hd]
      cases hrest : rest.dropWhile p with
      | nil => exact Or.inl rfl
      | cons x xs =>
        right
        rcases ih with h | h
        · rw [hrest] at h; cases h
        · rw [← hrest, h]
          cases rest with
          | nil => rw [List.dropWhile_nil] at hrest; simp at hrest
          | cons y ys => rw [List.getLast?_cons_cons]
    · rw [if_neg hd]; exact Or.inr rfl

theorem trimL_head {l : List Char} {c : Char} (h : (trimL l).head? = some c) :
    isWS c = false := by
  rw [trimL, List.head?_reverse] at h
  rcases getLast?_dropWhile ((l.dropWhile isWS).reverse) with h0 | h0
  · rw [h0] at h; cases h
  · rw [h0, List.getLast?_reverse] at h
    exact head?_dropWhile l c h

theorem trimL_last {l : List Char} {c : Char} (h : (trimL l).getLast? = some c) :
    isWS c = false := by
  rw [trimL, List.getLast?_reverse] at h
  exact head?_dropWhile _ c h

theorem noAdj_dropWhile {p : Char → Bool} : ∀ {l : List Char}, NoAdj l → NoAdj (l.dropWhile p) := by
  intro l
  induction l with
  | nil => intro h; exact h
  | cons d rest ih =>
    intro h
    rw [List.dropWhile_cons]
    by_cases hd : p d = true
    · rw [if_pos hd]; exact ih h.tail
    · rw [if_neg hd]; exact h

theorem noAdj_reverse {l : List Char} (h : NoAdj l) : NoAdj l.reverse := by
  rw [NoAdj, List.chain'_reverse]
  exact List.Chain'.imp (fun a b hab => hab.symm) h

theorem noAdj_trimL {l : List Char} (h : NoAdj l) : NoAdj (trimL l) := by
  rw [trimL]
  exact noAdj_reverse (noAdj_dropWhile (noAdj_reverse (noAdj_dropWhile h)))

theorem colAux_true_head : ∀ (l : List Char) (c : Char),
    (colAux none true l).head? = some c → isWS c = false := by
  intro l
  induction l with
  | nil => intro c h; cases h
  | cons d rest ih =>
    intro c h
    rw [colAux] at h
    by_cases hd : isWS d = true
    · rw [if_pos hd] at h
      exact ih c (by simpa using h)
    · rw [if_neg hd] at h
      have : d = c := by simpa using h
      rw [← this]; simpa using hd

theorem colAux_noAdj :
    ∀ (l : List Char),
      (∀ b, NoAdj (colAux none b l)) ∧
      (∀ (p : Char) (b : Bool), isWS p = true → NoAdj (colAux (some p) b l)) := by
  intro l
  induction l with
  | nil =>
    constructor
    · intro b; exact List.chain'_nil
    · intro p b _; exact List.chain'_singleton _
  | cons d rest ih =>
    constructor
    · intro b
      rw [colAux]
      by_cases hd : isWS d = true
      · rw [if_pos hd]
        cases b with
        | true => simpa using ih.1 true
        | false => simpa using ih.2 d false hd
      · rw [if_neg hd]
        rw [NoAdj, List.chain'_cons']
        exact ⟨fun y _ => Or.inl (by simpa using hd), ih.1 false⟩
    · intro p b hp
      rw [colAux]
      by_cases hd : isWS d = true
      · rw [if_pos hd]
        rw [NoAdj, List.chain'_cons']
        constructor
        · intro y hy
          exact Or.inr (colAux_true_head rest y (by simpa using hy))
        · exact ih.1 true
      · rw [if_neg hd]
        rw [NoAdj, List.chain'_cons]
        refine ⟨Or.inr (by simpa using hd), ?_⟩
        rw [List.chain'_cons']
        exact ⟨fun y _ => Or.inl (by simpa using hd), ih.1 false⟩

/-! ## Invariants of the full normalization -/

theorem oneLineL_star (l : List Char) : '*' ∉ oneLineL l := by
  intro h
  rw [oneLineL, collapseL, lineBrL, cleanPunctL] at h
  have h1 := mem_trimL h
  rcases mem_colAux _ none false _ h1 with h2 | h2 | h2
  · exact absurd h2 (by decide)
  · have h3 := mem_zwL h2
    rcases mem_nbspL h3.1 with h4 | h4
    · exact absurd h4 (by decide)
    · rcases mem_runsToSpace isLB _ false _ h4.1 with h5 | h5
      · exact absurd h5 (by decide)
      · exact star_not_mem_replStar _ h5.1
  · cases h2

theorem oneLineL_lb (l : List Char) : ∀ c ∈ oneLineL l, isLB c = false := by
  intro c h
  rw [oneLineL, collapseL, lineBrL, cleanPunctL] at h
  have h1 := mem_trimL h
  rcases mem_colAux _ none false _ h1 with h2 | h2 | h2
  · rw [h2]; decide
  · have h3 := mem_zwL h2
    rcases mem_nbspL h3.1 with h4 | h4
    · rw [h4]; decide
    · rcases mem_runsToSpace isLB _ false _ h4.1 with h5 | h5
      · rw [h5]; decide
      · exact h5.2
  · cases h2

theorem oneLineL_nbsp (l : List Char) : ' ' ∉ oneLineL l := by
  intro h
  rw [oneLineL, collapseL] at h
  have h1 := mem_trimL h
  rcases mem_colAux _ none false _ h1 with h2 | h2 | h2
  · exact absurd h2 (by decide)
  · have h3 := mem_zwL h2
    rcases mem_nbspL h3.1 with h4 | h4
    · exact absurd h4 (by decide)
    · exact h4.2 rfl
  · cases h2

theorem oneLineL_zw (l : List Char) : ∀ c ∈ oneLineL l, isZW c = false := by
  intro c h
  rw [oneLineL, collapseL] at h
  have h1 := mem_trimL h
  rcases mem_colAux _ none false _ h1 with h2 | h2 | h2
  · rw [h2]; decide
  · exact (mem_zwL h2).2
  · cases h2

theorem oneLineL_noAdj (l : List Char) : NoAdj (oneLineL l) := by
  rw [oneLineL, collapseL]
  exact noAdj_trimL ((colAux_noAdj _).1 false)

theorem oneLineL_head {l : List Char} {c : Char} (h : (oneLineL l).head? = some c) :
    isWS c = false := by
  rw [oneLineL] at h
  exact trimL_head h

theorem oneLineL_last {l : List Char} {c : Char} (h : (oneLineL l).getLast? = some c) :
    isWS c = false := by
  rw [oneLineL] at h
  exact trimL_last h

/-- a second application of `oneLine` fixes any output that contains neither
"<<" nor ">>". -/
theorem oneLineL_fix {l : List Char}
    (h1 : hasPair '<' (oneLineL l) = false)
    (h2 : hasPair '>' (oneLineL l) = false) :
    oneLineL (oneLineL l) = oneLineL l := by
  conv_lhs => rw [oneLineL]
  rw [cleanPunctL, replOpen_fix h1, replClose_fix h2, replStar_fix (oneLineL_star l),
      lineBrL, runsToSpace_fix isLB _ false (oneLineL_lb l),
      nbspL_fix (oneLineL_nbsp l), zwL_fix (oneLineL_zw l),
      collapseL_fix (oneLineL_noAdj l),
      trimL_fix (fun c hc => oneLineL_head hc) (fun c hc => oneLineL_last hc)]

/-! ## Claims -/

/-- C1 (counterexample): `oneLine` is not idempotent for every input.  On
"<*<" the asterisk removal runs after the quote rewriting and creates "<<",
which a second application turns into a typographic quote. -/
theorem c1_counterexample : oneLineS (oneLineS "<*<") ≠ oneLineS "<*<" := by decide

/-- C1 (amended): `oneLine` is idempotent on every input string whose
normalized output contains neither "<<" nor ">>" as a substring (the only way
a second pass can differ, as asterisk or zero-width removal can splice two
`<` or two `>` together). -/
theorem c1_amended (s : String)
    (h1 : hasPair '<' (oneLineS s).data = false)
    (h2 : hasPair '>' (oneLineS s).data = false) :
    oneLineS (oneLineS s) = oneLineS s :=
  congrArg String.mk (oneLineL_fix h1 h2)

/-- C1 (witness): the amended idempotence at a concrete input. -/
theorem c1_amended_witness :
    hasPair '<' (oneLineS "<<Hi>>  there\n*x*").data = false ∧
    hasPair '>' (oneLineS "<<Hi>>  there\n*x*").data = false ∧
    oneLineS (oneLineS "<<Hi>>  there\n*x*") = oneLineS "<<Hi>>  there\n*x*" :=
  ⟨by decide, by decide, c1_amended "<<Hi>>  there\n*x*" (by decide) (by decide)⟩

/-- C3 (counterexample): the reference regex accepts "John 0:5-2", whose
parsed chapter is 0 (violating chapter ≥ 1) and whose verseEnd 2 is smaller
than verseStart 5 (violating verseEnd ≥ verseStart). -/
theorem c3_counterexample :
    parseRef "John 0:5-2" = some ⟨"John", 0, some 5, some 2⟩ ∧
    ¬(1 ≤ (0 : Nat)) ∧ ¬((5 : Nat) ≤ (2 : Nat)) := by decide

/-- C3 (amended): for every input the parser accepts, verseEnd is present
exactly when verseStart is present, verseEnd equals verseStart when a single
verse (no range) is given, and verseEnd is the range end's value when a range
is given; the regex enforces no lower bound 1 on chapter or verseStart and no
ordering between verseStart and verseEnd. -/
theorem c3_amended (s : String) (m : RawMatch) (_h : matchRef s = some m) :
    ((parsedOfMatch m).verseEnd.isSome ↔ (parsedOfMatch m).verseStart.isSome) ∧
    (∀ vsD : String, m.g34 = some (vsD, none) →
      (parsedOfMatch m).verseEnd = (parsedOfMatch m).verseStart) ∧
    (∀ (vsD veD : String), m.g34 = some (vsD, some veD) →
      (parsedOfMatch m).verseEnd = some (natOfDigits veD.data)) := by
  clear _h
  rcases m with ⟨g1, g2, _ | ⟨vs, _ | ve⟩⟩ <;> simp [parsedOfMatch]

/-- C3 (witness): the amended invariant at the accepted input "John 3:16". -/
theorem c3_amended_witness :
    ((parsedOfMatch ⟨"John", "3", some ("16", none)⟩).verseEnd.isSome ↔
      (parsedOfMatch ⟨"John", "3", some ("16", none)⟩).verseStart.isSome) ∧
    (∀ vsD : String, (RawMatch.mk "John" "3" (some ("16", none))).g34 = some (vsD, none) →
      (parsedOfMatch ⟨"John", "3", some ("16", none)⟩).verseEnd =
        (parsedOfMatch ⟨"John", "3", some ("16", none)⟩).verseStart) ∧
    (∀ (vsD veD : String), (RawMatch.mk "John" "3" (some ("16", none))).g34 = some (vsD, some veD) →
      (parsedOfMatch ⟨"John", "3", some ("16", none)⟩).verseEnd = some (natOfDigits veD.data)) :=
  c3_amended "John 3:16" ⟨"John", "3", some ("16", none)⟩ (by decide)

/-- C6 (confirmed): the book resolver is case-insensitive and
period/whitespace-insensitive: "1 Cor.", "1 corinthians" and "I CORINTHIANS"
all resolve to the code "1CO". -/
theorem c6_resolver_insensitive :
    bookToCode "1 Cor." = some (.code "1CO") ∧
    bookToCode "1 corinthians" = some (.code "1CO") ∧
    bookToCode "I CORINTHIANS" = some (.code "1CO") := by decide

/-- C7 (confirmed): the documented parses: "John 3:16" gives chapter 3 and
the single verse 16 (verseEnd defaulted to verseStart), "Psalm 23:1-6" gives
the range 1–6, "Genesis 1" gives chapter 1 with no verse. -/
theorem c7_parse_examples :
    parseRef "John 3:16" = some ⟨"John", 3, some 16, some 16⟩ ∧
    parseRef "Psalm 23:1-6" = some ⟨"Psalm", 23, some 1, some 6⟩ ∧
    parseRef "Genesis 1" = some ⟨"Genesis", 1, none, none⟩ := by decide

/-- C8 (confirmed): `oneLine("<<Hello>>  world\n\n*bold*")` is exactly
"“Hello” world bold": quote markers become typographic quotes, asterisks are
deleted, line breaks become spaces, whitespace runs collapse, ends are
trimmed. -/
theorem c8_oneLine_example :
    oneLineS "<<Hello>>  world\n\n*bold*" = "“Hello” world bold" := by decide

/-- C10 (confirmed): for every input, the output of `oneLine` has no two
adjacent whitespace characters and no leading or trailing whitespace
character. -/
theorem c10_whitespace (s : String) :
    NoAdj (oneLineS s).data ∧
    ((oneLineS s).data.head?.all fun c => !isWS c) = true ∧
    ((oneLineS s).data.getLast?.all fun c => !isWS c) = true := by
  refine ⟨oneLineL_noAdj s.data, ?_, ?_⟩
  · show ((oneLineL s.data).head?.all fun c => !isWS c) = true
    cases hh : (oneLineL s.data).head? with
    | none => rfl
    | some c => simpa using oneLineL_head hh
  · show ((oneLineL s.data).getLast?.all fun c => !isWS c) = true
    cases hh : (oneLineL s.data).getLast? with
    | none => rfl
    | some c => simpa using oneLineL_last hh

/-! ## Handler claims -/

theorem strAppend_data (a b : String) : (a ++ b).data = a.data ++ b.data := by
  obtain ⟨al⟩ := a; obtain ⟨bl⟩ := b; rfl

theorem unknown_ne_missing (r : String) :
    Resp.bad400 ("Unknown book '" ++ r ++ "'") ≠ Resp.bad400 "Missing ref or ver" := by
  intro h
  have h1 : ("Unknown book '" ++ r ++ "'").data = "Missing ref or ver".data := by
    have h0 : ("Unknown book '" ++ r ++ "'") = "Missing ref or ver" := by injection h
    rw [h0]
  rw [strAppend_data, strAppend_data] at h1
  rw [show ("Unknown book '" : String).data = 'U' :: ("nknown book '" : String).data from rfl,
      show ("Missing ref or ver" : String).data = 'M' :: ("issing ref or ver" : String).data from rfl,
      List.cons_append, List.cons_append] at h1
  injection h1 with h2 _
  exact absurd h2 (by decide)

theorem chapterOnly_ne_bad (fc : String → FetchResult ChapterData) (r e : String) :
    chapterOnly fc r ≠ .bad400 e := by
  rw [chapterOnly]
  cases fc r with
  | ok ch => exact fun h => Resp.noConfusion h
  | err => exact fun h => Resp.noConfusion h

/-- C4 (counterexample): the parameter check is `!input || !ver`, and the
number 0 is falsy, so the numeric ver "0" wrongly produces the
missing-parameter 400. -/
theorem c4_counterexample :
    jsNumber (some "0") = some 0 ∧
    handler (some "John 3:16") (some "0") (fun _ => .err) (fun _ => .err)
      = .bad400 "Missing ref or ver" := by decide

/-- C4 (amended): the endpoint responds 400 "Missing ref or ver" exactly when
the trimmed ref is empty (ref absent or blank) or Number(ver) is NaN or 0
(ver absent, non-numeric, or the falsy numeric 0). -/
theorem c4_amended (ref ver : Option String)
    (fv : String → FetchResult VerseData) (fc : String → FetchResult ChapterData) :
    handler ref ver fv fc = .bad400 "Missing ref or ver" ↔
      ((⟨trimL (ref.getD "").data⟩ : String) = "" ∨ jsNumber ver = none ∨
        jsNumber ver = some 0) := by
  constructor
  · intro h
    by_cases hc : ((⟨trimL (ref.getD "").data⟩ : String) = "" ∨ jsNumber ver = none ∨
        jsNumber ver = some 0)
    · exact hc
    · exfalso
      simp only [handler] at h
      rw [if_neg hc] at h
      split at h
      · exact absurd h (by decide)
      · split at h
        · exact unknown_ne_missing _ h
        · split at h
          · split at h
            · exact chapterOnly_ne_bad _ _ _ h
            · split at h
              · exact Resp.noConfusion h
              · split at h
                · exact Resp.noConfusion h
                · exact Resp.noConfusion h
          · exact chapterOnly_ne_bad _ _ _ h
  · intro h
    simp only [handler]
    rw [if_pos h]

/-- C5 (confirmed): when the normalized book string is neither a canonical
3-letter code nor an exact alias key and some alias key has it as a prefix,
the resolver returns the code of the first such table entry in definition
order (first-match-wins). -/
theorem c5_prefix_first (raw : String) (kv : String × String)
    (hcode : VALID_CODES.contains
      (⟨((normS raw).data.filter (fun c => !isWS c)).map Char.toUpper⟩ : String) = false)
    (hexact : NAME_TO_CODE.find? (fun e => e.1 == normS raw) = none)
    (hpre : NAME_TO_CODE.find? (fun e => isPrefixL (normS raw).data e.1.data) = some kv) :
    bookToCode raw = some (.code kv.2) := by
  have hdisj : ∀ e ∈ NAME_TO_CODE,
      isPrefixL ("constructor" : String).data e.1.data = false ∧
      isPrefixL ("__proto__" : String).data e.1.data = false := by decide
  have hproto : PROTO_KEYS.contains (normS raw) = false := by
    cases hp : PROTO_KEYS.contains (normS raw) with
    | false => rfl
    | true =>
      exfalso
      have hmem := List.mem_of_find?_eq_some hpre
      have hpref := List.find?_some hpre
      have hcn : normS raw = "constructor" ∨ normS raw = "__proto__" := by
        simpa [PROTO_KEYS] using hp
      rcases hcn with h | h <;> rw [h] at hpref
      · simp [(hdisj kv hmem).1] at hpref
      · simp [(hdisj kv hmem).2] at hpref
  rw [bookToCode]
  simp only [hcode, hexact, hproto, hpre]
  simp

/-- C5 (witness): "jo" resolves through the prefix fallback to "JOS", the
code of "joshua", the first table key starting with "jo". -/
theorem c5_witness : bookToCode "jo" = some (BookHit.code "JOS") :=
  c5_prefix_first "jo" ("joshua", "JOS") (by decide) (by decide) (by decide)

/-- C2 (counterexample): in the fallback the server does not return the plain
single-space concatenation of the kept verses' normalized contents; it applies
`oneLine` to the joined string once more, so a verse normalizing to "" makes
the result "x" where the claimed concatenation is " x". -/
theorem c2_counterexample :
    handler (some "John 3:16-17") (some "3202") (fun _ => .err)
      (fun _ => .ok ⟨some [⟨"JHN.3.16", ""⟩, ⟨"JHN.3.17", "x"⟩]⟩)
      = .ok200 (.slice "x" "John 3:16-17") ∧
    (⟨sliceJoin 16 17 [⟨"JHN.3.16", ""⟩, ⟨"JHN.3.17", "x"⟩]⟩ : String) = " x" ∧
    ("x" : String) ≠ " x" := by decide

/-- C2 (amended): when a range with nonzero verseStart was requested and the
direct verse fetch failed or timed out, the handler fetches the chapter,
keeps exactly the verses whose reference's last dot-segment parses to n with
verseStart ≤ n ≤ verseEnd, joins their normalized contents with single
spaces, and returns that string normalized once more by `oneLine`; if the
chapter fallback also fails or times out, the response is 504
"Upstream timeout. Please try again.". -/
theorem c2_amended (ref ver : Option String)
    (fv : String → FetchResult VerseData) (fc : String → FetchResult ChapterData)
    (m : RawMatch) (vsD : String) (veD? : Option String) (code : String)
    (hnm : ¬((⟨trimL (ref.getD "").data⟩ : String) = "" ∨ jsNumber ver = none ∨
      jsNumber ver = some 0))
    (hm : matchRef ⟨trimL (ref.getD "").data⟩ = some m)
    (hbk : bookToCode m.g1 = some (.code code))
    (hg : m.g34 = some (vsD, veD?))
    (hvs : ¬(natOfDigits vsD.data = 0))
    (hvf : fv (code ++ "." ++ toString (natOfDigits m.g2.data) ++ "." ++
      toString (natOfDigits vsD.data)) = .err) :
    (∀ ch : ChapterData, fc (code ++ "." ++ toString (natOfDigits m.g2.data)) = .ok ch →
      handler ref ver fv fc = .ok200 (.slice
        ⟨oneLineL (sliceJoin (natOfDigits vsD.data) (veOf vsD veD?) (ch.verses.getD []))⟩
        ⟨trimL (ref.getD "").data⟩)) ∧
    (fc (code ++ "." ++ toString (natOfDigits m.g2.data)) = .err →
      handler ref ver fv fc = .to504 "Upstream timeout. Please try again.") := by
  constructor
  · intro ch hch
    simp only [handler]
    rw [if_neg hnm, hm]
    simp only [hbk]
    simp only [hitStr]
    simp only [hg]
    rw [if_neg hvs, hvf, hch]
  · intro hch
    simp only [handler]
    rw [if_neg hnm, hm]
    simp only [hbk]
    simp only [hitStr]
    simp only [hg]
    rw [if_neg hvs, hvf, hch]

/-- C2 (witness): the amended fallback behaviour at concrete oracles. -/
theorem c2_amended_witness :
    handler (some "John 3:16") (some "3202") (fun _ => .err)
      (fun _ => .ok ⟨some [⟨"JHN.3.16", "For God  so loved"⟩]⟩)
      = .ok200 (.slice "For God so loved" "John 3:16") := by
  have h := (c2_amended (some "John 3:16") (some "3202") (fun _ => .err)
      (fun _ => .ok ⟨some [⟨"JHN.3.16", "For God  so loved"⟩]⟩)
      ⟨"John", "3", some ("16", none)⟩ "16" none "JHN"
      (by decide) (by decide) (by decide) (by decide) (by decide) rfl).1
      ⟨some [⟨"JHN.3.16", "For God  so loved"⟩]⟩ rfl
  rw [h]; decide

/-- C9 (counterexample): "constructor" is not a canonical code, not an alias
key and not a prefix of any alias key, yet the resolver does not signal
not-found (the property read hits `Object.prototype.constructor`, a truthy
non-string) and the endpoint does not respond 400 for "constructor 1". -/
theorem c9_counterexample :
    NAME_TO_CODE.find? (fun e => e.1 == normS "constructor") = none ∧
    NAME_TO_CODE.find? (fun e => isPrefixL (normS "constructor").data e.1.data) = none ∧
    bookToCode "constructor" ≠ none ∧
    handler (some "constructor 1") (some "3202") (fun _ => .err) (fun _ => .err)
      ≠ .bad400 "Unknown book 'constructor'" := by decide

/-- C9 (amended): for every input whose normalized form is not a canonical
code, not an exact alias key, not a prefix of any alias key, and not an
inherited `Object.prototype` member name ("constructor"/"__proto__"), the
resolver returns not-found; and whenever the resolver returns not-found for
the parsed book of a well-formed request, the endpoint responds 400 with
"Unknown book '<rawBook>'". -/
theorem c9_amended :
    (∀ raw : String,
      VALID_CODES.contains
        (⟨((normS raw).data.filter (fun c => !isWS c)).map Char.toUpper⟩ : String) = false →
      NAME_TO_CODE.find? (fun e => e.1 == normS raw) = none →
      NAME_TO_CODE.find? (fun e => isPrefixL (normS raw).data e.1.data) = none →
      PROTO_KEYS.contains (normS raw) = false →
      bookToCode raw = none) ∧
    (∀ (ref ver : Option String) (fv : String → FetchResult VerseData)
        (fc : String → FetchResult ChapterData) (m : RawMatch),
      ¬((⟨trimL (ref.getD "").data⟩ : String) = "" ∨ jsNumber ver = none ∨
        jsNumber ver = some 0) →
      matchRef ⟨trimL (ref.getD "").data⟩ = some m →
      bookToCode m.g1 = none →
      handler ref ver fv fc = .bad400 ("Unknown book '" ++ m.g1 ++ "'")) := by
  constructor
  · intro raw h1 h2 h3 h4
    rw [bookToCode]
    simp only [h1, h2, h3, h4]
    simp
  · intro ref ver fv fc m hnm hm hb
    simp only [handler]
    rw [if_neg hnm, hm]
    simp only [hb]

/-- C9 (witness): the unknown book "XYZ" is rejected by the resolver, and the
endpoint answers 400 "Unknown book 'XYZ'" for "XYZ 1". -/
theorem c9_amended_witness :
    bookToCode "XYZ" = none ∧
    handler (some "XYZ 1") (some "3202") (fun _ => .err) (fun _ => .err)
      = .bad400 "Unknown book 'XYZ'" := by
  constructor
  · exact c9_amended.1 "XYZ" (by decide) (by decide) (by decide) (by decide)
  · have h := c9_amended.2 (some "XYZ 1") (some "3202") (fun _ => .err) (fun _ => .err)
      ⟨"XYZ", "1", none⟩ (by decide) (by decide) (by decide)
    rw [h]; decide
